import Mathlib

/-!
Verification of the `cached_row_cursor` crate (`src/lib.rs`).

The Rust type `CachedRowCursor<T>` wraps a buffered, seekable byte source and
tracks a byte position, a row position, the discovered total length and row
count, a separator byte, a sampling granularity, and a sparse `BTreeMap`
cache from row indices to byte offsets.

The shallow embedding below models the underlying source as a list of bytes
together with an explicit read position (`inner_pos`).  An optional error
injection point (`errAt`, with error payload `errCode`) models a source whose
reads fail once the read position reaches `errAt`; with `errAt = none` the
source never fails, which is the behaviour of an in-memory source.  Machine
integers are modelled as `Nat`/`Int`; the one place the code performs a
lossy cast (`u64 as i64` in `seek`/`seek_row`) is modelled explicitly by
`asI64`.  Fallible operations return `PResult`, whose `panic` constructor
records that the Rust code would panic (`unwrap` on an `Err`, or an integer
division/remainder by zero, or `u64` underflow).
-/

namespace CachedRow

/-- Errors surfaced by cursor operations: either an I/O error propagated from
the underlying source (carrying the source's error payload) or the locally
manufactured invalid-seek error. -/
inductive Err where
  | ioErr : Nat → Err
  | invalidSeek : Err
deriving DecidableEq, Repr

/-- State of a `CachedRowCursor` together with its underlying source.
`data` is the full content of the wrapped stream, `inner_pos` the source's
current read position; the remaining fields mirror the Rust struct fields
`pos`, `row_pos`, `length`, `row_length`, `separator`, `granularity`,
`cached_index` (the ordered map is a key-sorted association list). -/
structure Cursor where
  data : List Nat
  errAt : Option Nat
  errCode : Nat
  inner_pos : Nat
  pos : Nat
  row_pos : Nat
  length : Option Nat
  row_length : Option Nat
  separator : Nat
  granularity : Nat
  cached_index : List (Nat × Nat)
deriving DecidableEq, Repr

/-- Result of a cursor operation: success with the mutated cursor and a
return value, an error with the cursor as mutated up to the error, or a
Rust panic (which aborts, leaving no usable state). -/
inductive PResult (α : Type) where
  | ok : Cursor → α → PResult α
  | err : Cursor → Err → PResult α
  | panic : PResult α
deriving DecidableEq, Repr

/-- `CachedRowCursor::new`: seeds the cache with the permanent `(0, 0)`
entry and zero-initialises both positions. -/
def newCursor (data : List Nat) (separator granularity : Nat) : Cursor :=
  { data := data, errAt := none, errCode := 0, inner_pos := 0, pos := 0,
    row_pos := 0, length := none, row_length := none, separator := separator,
    granularity := granularity, cached_index := [(0, 0)] }

/-- `BTreeMap::contains_key` on the key-sorted association list. -/
def containsKey (k : Nat) : List (Nat × Nat) → Bool
  | [] => false
  | kv :: t => kv.1 = k || containsKey k t

/-- `BTreeMap::insert` on the key-sorted association list. -/
def insertSorted (k v : Nat) : List (Nat × Nat) → List (Nat × Nat)
  | [] => [(k, v)]
  | kv :: t =>
    if k < kv.1 then (k, v) :: kv :: t
    else if k = kv.1 then (k, v) :: t
    else kv :: insertSorted k v t

/-- `cached_index.iter().take_while(|(_, byte)| byte < target).last().unwrap_or((0, 0))`:
the last cache entry whose byte offset is below the target, used by
`set_position`. -/
def lastBelow (target : Nat) (l : List (Nat × Nat)) : Nat × Nat :=
  ((l.takeWhile fun kv => kv.2 < target).getLast?).getD (0, 0)

/-- `BTreeMap::get_key_value` on the association list. -/
def getKV (k : Nat) (l : List (Nat × Nat)) : Option (Nat × Nat) :=
  l.find? fun kv => kv.1 = k

/-- The cache probe of `set_row_position`: look up the literal key
`row / granularity`; on a miss fall back to the last (greatest-key) cache
entry, and to `(0, 0)` if the cache were empty.  The caller has already
ruled out `granularity = 0`. -/
def rowLookup (row : Nat) (c : Cursor) : Nat × Nat :=
  match getKV (row / c.granularity) c.cached_index with
  | some kv => kv
  | none => (c.cached_index.getLast?).getD (0, 0)

/-- The bytes `BufRead::read_until(b)` returns from a remaining stream:
everything up to and including the first occurrence of `b`, or the whole
rest of the stream if `b` does not occur. -/
def readUntilTaken (b : Nat) : List Nat → List Nat
  | [] => []
  | x :: t => if x = b then [x] else x :: readUntilTaken b t

/-- Number of bytes `read_until(b)` consumes from position `p` of `data`. -/
def innerReadLen (data : List Nat) (b : Nat) (p : Nat) : Nat :=
  (readUntilTaken b (data.drop p)).length

/-- Whether the next read from the underlying source fails: the injected
error point `errAt` has been reached. -/
def srcFails (c : Cursor) : Bool :=
  match c.errAt with
  | some e => e ≤ c.inner_pos
  | none => false

/-- `inner.seek(SeekFrom::Current(delta))`: the underlying source fails on a
seek to a negative absolute position, otherwise repositions and returns the
new absolute position. -/
def innerSeekCur (delta : Int) (c : Cursor) : PResult Nat :=
  let t : Int := (c.inner_pos : Int) + delta
  if t < 0 then .err c (.ioErr c.errCode)
  else .ok { c with inner_pos := t.toNat } t.toNat

/-- `CachedRowCursor::read_row`: read one row (up to and including the
separator) from the source.  On a non-empty read, advance both counters and
sample the cache when `row_pos` is a multiple of `granularity` that is not
yet a key (the `row_pos % granularity` expression panics when
`granularity = 0`).  On an empty read (end of stream), fix `row_length` and
`length` to the current counters. -/
def readRow (c : Cursor) : PResult Nat :=
  if srcFails c then .err c (.ioErr c.errCode)
  else
    let n := innerReadLen c.data c.separator c.inner_pos
    if n ≠ 0 then
      if c.granularity = 0 then .panic
      else
        let c1 : Cursor :=
          { c with inner_pos := c.inner_pos + n, pos := c.pos + n,
                   row_pos := c.row_pos + 1 }
        if c1.row_pos % c.granularity = 0 ∧
            containsKey c1.row_pos c1.cached_index = false then
          .ok { c1 with
                  cached_index := insertSorted c1.row_pos c1.pos c1.cached_index } n
        else .ok c1 n
    else
      .ok { c with row_length := some c.row_pos, length := some c.pos } 0

/-- The strict key order of the cache map. -/
def keyLt (a b : Nat × Nat) : Prop := a.1 < b.1

instance : DecidableRel keyLt := fun a b => inferInstanceAs (Decidable (a.1 < b.1))

/-- The cache is strictly sorted by key, as a `BTreeMap` iteration is. -/
def cacheSorted (l : List (Nat × Nat)) : Prop := List.Chain' keyLt l

instance (l : List (Nat × Nat)) : Decidable (cacheSorted l) :=
  inferInstanceAs (Decidable (List.Chain' keyLt l))

theorem readUntilTaken_length_le (b : Nat) (l : List Nat) :
    (readUntilTaken b l).length ≤ l.length := by
  induction l with
  | nil => simp [readUntilTaken]
  | cons x t ih =>
    simp only [readUntilTaken]
    split
    · simp
    · simpa using ih

theorem readUntilTaken_length_eq_zero_iff (b : Nat) (l : List Nat) :
    (readUntilTaken b l).length = 0 ↔ l = [] := by
  cases l with
  | nil => simp [readUntilTaken]
  | cons x t =>
    simp only [readUntilTaken]
    split <;> simp

theorem innerReadLen_eq_zero_iff (data : List Nat) (b p : Nat) :
    innerReadLen data b p = 0 ↔ data.length ≤ p := by
  rw [innerReadLen, readUntilTaken_length_eq_zero_iff, List.drop_eq_nil_iff]

theorem innerReadLen_add_le (data : List Nat) (b p : Nat) :
    p + innerReadLen data b p ≤ p + (data.length - p) := by
  have h := readUntilTaken_length_le b (data.drop p)
  rw [List.length_drop] at h
  rw [innerReadLen]
  omega

theorem containsKey_eq_false_iff (k : Nat) (l : List (Nat × Nat)) :
    containsKey k l = false ↔ ∀ kv ∈ l, kv.1 ≠ k := by
  induction l with
  | nil => simp [containsKey]
  | cons kv t ih => simp [containsKey, ih]

theorem sublist_insertSorted (k v : Nat) (l : List (Nat × Nat))
    (h : containsKey k l = false) : l.Sublist (insertSorted k v l) := by
  induction l with
  | nil => simp [insertSorted]
  | cons kv t ih =>
    simp only [containsKey, Bool.or_eq_false_iff, decide_eq_false_iff_not] at h
    simp only [insertSorted]
    by_cases h1 : k < kv.1
    · rw [if_pos h1]
      exact List.sublist_cons_self (k, v) (kv :: t)
    · rw [if_neg h1]
      by_cases h2 : k = kv.1
      · exact absurd h2.symm h.1
      · rw [if_neg h2]
        exact (ih h.2).cons₂ kv

theorem mem_insertSorted (k v : Nat) (l : List (Nat × Nat)) (kv' : Nat × Nat)
    (h : kv' ∈ insertSorted k v l) : kv' = (k, v) ∨ kv' ∈ l := by
  induction l with
  | nil => simpa [insertSorted] using h
  | cons kv t ih =>
    simp only [insertSorted] at h
    by_cases h1 : k < kv.1
    · rw [if_pos h1] at h
      simp only [List.mem_cons] at h ⊢
      tauto
    · rw [if_neg h1] at h
      by_cases h2 : k = kv.1
      · rw [if_pos h2] at h
        simp only [List.mem_cons] at h ⊢
        tauto
      · rw [if_neg h2] at h
        simp only [List.mem_cons] at h ⊢
        rcases h with h | h
        · tauto
        · rcases ih h with h3 | h3 <;> tauto

theorem head?_insertSorted (k v : Nat) (l : List (Nat × Nat)) :
    (insertSorted k v l).head? = some (k, v) ∨ (insertSorted k v l).head? = l.head? := by
  cases l with
  | nil => simp [insertSorted]
  | cons kv t =>
    simp only [insertSorted]
    by_cases h1 : k < kv.1
    · rw [if_pos h1]; simp
    · rw [if_neg h1]
      by_cases h2 : k = kv.1
      · rw [if_pos h2]; simp
      · rw [if_neg h2]; simp

theorem cacheSorted_insertSorted (k v : Nat) (l : List (Nat × Nat))
    (hs : cacheSorted l) (h : containsKey k l = false) :
    cacheSorted (insertSorted k v l) := by
  induction l with
  | nil => simp [insertSorted, cacheSorted]
  | cons kv t ih =>
    simp only [containsKey, Bool.or_eq_false_iff, decide_eq_false_iff_not] at h
    rw [cacheSorted, List.chain'_cons'] at hs
    simp only [insertSorted]
    by_cases h1 : k < kv.1
    · rw [if_pos h1, cacheSorted, List.chain'_cons']
      refine ⟨fun y hy => ?_, List.chain'_cons'.2 hs⟩
      simp only [List.head?_cons, Option.mem_def, Option.some.injEq] at hy
      subst hy
      exact h1
    · rw [if_neg h1]
      by_cases h2 : k = kv.1
      · exact absurd h2.symm h.1
      · rw [if_neg h2, cacheSorted, List.chain'_cons']
        have hkgt : kv.1 < k := by omega
        refine ⟨fun y hy => ?_, ih hs.2 h.2⟩
        rcases head?_insertSorted k v t with he | he
        · simp only [he, Option.mem_def, Option.some.injEq] at hy
          subst hy
          exact hkgt
        · rw [he] at hy
          exact hs.1 y hy

/-- Full characterisation of the successful outcomes of `readRow`. -/
theorem readRow_ok (c c' : Cursor) (n : Nat) (h : readRow c = .ok c' n) :
    c'.data = c.data ∧ c'.errAt = c.errAt ∧ c'.errCode = c.errCode ∧
    c'.separator = c.separator ∧ c'.granularity = c.granularity ∧
    c'.inner_pos = c.inner_pos + n ∧ c'.pos = c.pos + n ∧
    (n = 0 →
      c'.row_pos = c.row_pos ∧ c'.cached_index = c.cached_index ∧
      c'.length = some c.pos ∧ c'.row_length = some c.row_pos ∧
      c.data.length ≤ c.inner_pos) ∧
    (n ≠ 0 →
      c'.row_pos = c.row_pos + 1 ∧ c'.length = c.length ∧
      c'.row_length = c.row_length ∧ c.inner_pos < c.data.length ∧
      c.inner_pos + n ≤ c.data.length ∧ c.granularity ≠ 0 ∧
      (if c'.row_pos % c.granularity = 0 ∧
          containsKey c'.row_pos c.cached_index = false then
        c'.cached_index = insertSorted c'.row_pos c'.pos c.cached_index
      else c'.cached_index = c.cached_index)) := by
  rw [readRow] at h
  by_cases hf : srcFails c
  · rw [if_pos hf] at h
    exact absurd h (by simp)
  · rw [if_neg hf] at h
    simp only at h
    by_cases hn : innerReadLen c.data c.separator c.inner_pos ≠ 0
    · rw [if_pos hn] at h
      by_cases hg : c.granularity = 0
      · rw [if_pos hg] at h
        exact absurd h (by simp)
      · rw [if_neg hg] at h
        have hlt : c.inner_pos < c.data.length := by
          rcases Nat.lt_or_ge c.inner_pos c.data.length with h1 | h1
          · exact h1
          · exact absurd ((innerReadLen_eq_zero_iff c.data c.separator c.inner_pos).2 h1) hn
        have hle := innerReadLen_add_le c.data c.separator c.inner_pos
        split at h
        · rcases h with ⟨rfl, rfl⟩
          refine ⟨rfl, rfl, rfl, rfl, rfl, rfl, rfl, ?_, ?_⟩
          · intro h0; exact absurd h0 hn
          · intro _
            refine ⟨rfl, rfl, rfl, hlt, by omega, hg, ?_⟩
            rw [if_pos (by assumption)]
        · rcases h with ⟨rfl, rfl⟩
          refine ⟨rfl, rfl, rfl, rfl, rfl, rfl, rfl, ?_, ?_⟩
          · intro h0; exact absurd h0 hn
          · intro _
            refine ⟨rfl, rfl, rfl, hlt, by omega, hg, ?_⟩
            rw [if_neg (by assumption)]
    · rw [if_neg hn] at h
      simp only [not_not] at hn
      rcases h with ⟨rfl, rfl⟩
      refine ⟨rfl, rfl, rfl, rfl, rfl, by simp, by simp, ?_, ?_⟩
      · intro _
        exact ⟨rfl, rfl, rfl, rfl, (innerReadLen_eq_zero_iff _ _ _).1 hn⟩
      · intro h0; exact absurd rfl h0

theorem readRow_pos_lt (c c' : Cursor) (n : Nat) (h : readRow c = .ok c' n)
    (hn : n ≠ 0) : c.pos < c'.pos := by
  obtain ⟨-, -, -, -, -, -, hpos, -, -⟩ := readRow_ok c c' n h
  omega

theorem readRow_row_succ (c c' : Cursor) (n : Nat) (h : readRow c = .ok c' n)
    (hn : n ≠ 0) : c'.row_pos = c.row_pos + 1 :=
  ((readRow_ok c c' n h).2.2.2.2.2.2.2.2 hn).1

/-- Termination measure of the scan-to-end-of-stream loop of `seek`. -/
def eofMeasureB (st : Cursor) : Nat :=
  (if st.length = none then 1 else 0) + (st.data.length + 1 - st.inner_pos)

/-- Termination measure of the scan-to-end-of-stream loop of `seek_row`. -/
def eofMeasureR (st : Cursor) : Nat :=
  (if st.row_length = none then 1 else 0) + (st.data.length + 1 - st.inner_pos)

theorem readRow_eofMeasureB (c c' : Cursor) (n : Nat) (h : readRow c = .ok c' n)
    (hl : c.length = none) : eofMeasureB c' < eofMeasureB c := by
  obtain ⟨hd, -, -, -, -, hip, -, h0, hs⟩ := readRow_ok c c' n h
  by_cases hn : n = 0
  · subst hn
    obtain ⟨-, -, hlen, -, -⟩ := h0 rfl
    rw [eofMeasureB, eofMeasureB, hd, hip, hlen, hl]
    simp
  · obtain ⟨-, hlen, -, hlt, hle, -, -⟩ := hs hn
    rw [eofMeasureB, eofMeasureB, hd, hip, hlen, hl]
    simp only [if_pos rfl]
    omega

theorem readRow_eofMeasureR (c c' : Cursor) (n : Nat) (h : readRow c = .ok c' n)
    (hl : c.row_length = none) : eofMeasureR c' < eofMeasureR c := by
  obtain ⟨hd, -, -, -, -, hip, -, h0, hs⟩ := readRow_ok c c' n h
  by_cases hn : n = 0
  · subst hn
    obtain ⟨-, -, -, hlen, -⟩ := h0 rfl
    rw [eofMeasureR, eofMeasureR, hd, hip, hlen, hl]
    simp
  · obtain ⟨-, -, hlen, hlt, hle, -, -⟩ := hs hn
    rw [eofMeasureR, eofMeasureR, hd, hip, hlen, hl]
    simp only [if_pos rfl]
    omega

/-- The forward-scan loop of `set_position`: `while self.pos < pos` invoke
`read_row`, stopping early on an empty read (end of stream); I/O errors
propagate via the `?` operator. -/
def scanToBytePos (target : Nat) (st : Cursor) : PResult Unit :=
  if h : st.pos < target then
    match hr : readRow st with
    | .ok st' n => if n = 0 then .ok st' () else scanToBytePos target st'
    | .err st' e => .err st' e
    | .panic => .panic
  else .ok st ()
termination_by target - st.pos
decreasing_by
  have := readRow_pos_lt st st' n hr (by assumption)
  omega

/-- The forward-scan loop of `set_row_position`:
`while self.row_pos < row && self.read_row(&mut buf).unwrap() != 0`.  The
`unwrap()` turns an I/O error from `read_row` into a panic. -/
def scanToRowPos (target : Nat) (st : Cursor) : PResult Unit :=
  if h : st.row_pos < target then
    match hr : readRow st with
    | .ok st' n => if n = 0 then .ok st' () else scanToRowPos target st'
    | .err _ _ => .panic
    | .panic => .panic
  else .ok st ()
termination_by target - st.row_pos
decreasing_by
  have := readRow_row_succ st st' n hr (by assumption)
  omega

/-- The `while self.length.is_none() { self.read_row(&mut buf)?; }` loop of
`seek(End(_))`. -/
def scanToEofByte (st : Cursor) : PResult Unit :=
  if h : st.length = none then
    match hr : readRow st with
    | .ok st' _ => scanToEofByte st'
    | .err st' e => .err st' e
    | .panic => .panic
  else .ok st ()
termination_by eofMeasureB st
decreasing_by
  exact readRow_eofMeasureB st st' _ hr h

/-- The `while self.row_length.is_none() { self.read_row(&mut buf)?; }` loop
of `seek_row(End(_))`. -/
def scanToEofRow (st : Cursor) : PResult Unit :=
  if h : st.row_length = none then
    match hr : readRow st with
    | .ok st' _ => scanToEofRow st'
    | .err st' e => .err st' e
    | .panic => .panic
  else .ok st ()
termination_by eofMeasureR st
decreasing_by
  exact readRow_eofMeasureR st st' _ hr h

/-- First phase of `set_position`: find the last cache entry whose byte
offset is below the target (falling back to `(0, 0)`), seek the source there
relative to the current byte position, record the source's resulting
absolute position into `pos` and the entry's key into `row_pos`. -/
def setPosStart (p : Nat) (c : Cursor) : PResult Unit :=
  let kv := lastBelow p c.cached_index
  match innerSeekCur ((kv.2 : Int) - (c.pos : Int)) c with
  | .ok c1 newpos => .ok { c1 with pos := newpos, row_pos := kv.1 } ()
  | .err c' e => .err c' e
  | .panic => .panic

/-- Overshoot correction of `set_position`: when the row scan ran past the
target, seek the source backward by the overshoot, pin `pos` to the target
and count the partially consumed row out of `row_pos` (`row_pos -= 1`,
which for `u64` is a panic when `row_pos = 0`). -/
def setPosCorrect (p : Nat) (c3 : Cursor) : PResult Nat :=
  if c3.pos > p then
    if c3.row_pos = 0 then .panic
    else
      match innerSeekCur ((p : Int) - (c3.pos : Int)) c3 with
      | .ok c4 _ => .ok { c4 with pos := p, row_pos := c3.row_pos - 1 } p
      | .err c' e => .err c' e
      | .panic => .panic
  else .ok c3 c3.pos

/-- `CachedRowCursor::set_position`: cache jump, forward scan, overshoot
correction, returning the final byte position. -/
def setPosition (p : Nat) (c : Cursor) : PResult Nat :=
  match setPosStart p c with
  | .ok c2 _ =>
    match scanToBytePos p c2 with
    | .ok c3 _ => setPosCorrect p c3
    | .err c' e => .err c' e
    | .panic => .panic
  | .err c' e => .err c' e
  | .panic => .panic

/-- `CachedRowCursor::position`. -/
def position (c : Cursor) : Nat := c.pos

/-- `CachedRowCursor::row_position`. -/
def rowPosition (c : Cursor) : Nat := c.row_pos

/-- `CachedRowCursor::set_row_position`: probe the cache at the literal key
`row / granularity` (a division that panics when `granularity = 0`), fall
back to the last cache entry on a miss, seek the source to the entry's byte
offset, adopt the entry as the current position, then scan forward while
`row_pos < row` (the loop `unwrap`s each `read_row` result). -/
def setRowPosition (row : Nat) (c : Cursor) : PResult Nat :=
  if c.granularity = 0 then .panic
  else
    let kv := rowLookup row c
    match innerSeekCur ((kv.2 : Int) - (c.pos : Int)) c with
    | .ok c1 _ =>
      let c2 : Cursor := { c1 with row_pos := kv.1, pos := kv.2 }
      match scanToRowPos row c2 with
      | .ok c3 _ => .ok c3 c3.row_pos
      | .err c' e => .err c' e
      | .panic => .panic
    | .err c' e => .err c' e
    | .panic => .panic

/-- `std::io::SeekFrom`. -/
inductive Whence where
  | start : Nat → Whence
  | current : Int → Whence
  | fromEnd : Int → Whence
deriving DecidableEq, Repr

/-- The `u64 as i64` cast: two's-complement reinterpretation, negative for
values of `2^63` and above. -/
def asI64 (n : Nat) : Int :=
  if n < 2 ^ 63 then (n : Int) else (n : Int) - 2 ^ 64

/-- Tail of `Seek::seek`: reject a negative computed target with the
invalid-seek error, otherwise delegate to `set_position`. -/
def seekFinish (t : Int) (c : Cursor) : PResult Nat :=
  if t < 0 then .err c .invalidSeek
  else setPosition t.toNat c

/-- `Seek::seek` for `CachedRowCursor`: translate the `SeekFrom` into an
absolute byte target (`End` first scans to end-of-stream when the total
length is unknown), then delegate to `set_position`; a negative target is
rejected with the invalid-seek error. -/
def seek (w : Whence) (c : Cursor) : PResult Nat :=
  match w with
  | .start n => seekFinish (asI64 n) c
  | .current m => seekFinish (asI64 c.pos + m) c
  | .fromEnd m =>
    match scanToEofByte c with
    | .ok c1 _ =>
      match c1.length with
      | some len => seekFinish (asI64 len - 1 + m) c1
      | none => .panic
    | .err c' e => .err c' e
    | .panic => .panic

/-- Tail of `seek_row`: reject a negative computed target with the
invalid-seek error, otherwise delegate to `set_row_position`. -/
def seekRowFinish (t : Int) (c : Cursor) : PResult Nat :=
  if t < 0 then .err c .invalidSeek
  else setRowPosition t.toNat c

/-- `CachedRowCursor::seek_row`: like `seek` but in row space, with `End`
relative to `total_rows - 1` (scanning to end-of-stream first when the row
count is unknown). -/
def seekRow (w : Whence) (c : Cursor) : PResult Nat :=
  match w with
  | .start n => seekRowFinish (asI64 n) c
  | .current m => seekRowFinish (asI64 c.row_pos + m) c
  | .fromEnd m =>
    match scanToEofRow c with
    | .ok c1 _ =>
      match c1.row_length with
      | some len => seekRowFinish (asI64 len - 1 + m) c1
      | none => .panic
    | .err c' e => .err c' e
    | .panic => .panic

/-- `Read::read` for `CachedRowCursor`: forward the read to the source
(which fills the first `n` bytes of the caller's buffer), advance `pos` by
`n`, and advance `row_pos` by the number of separator bytes found in the
whole buffer — filled prefix and untouched remainder alike, exactly as
`buf.iter().filter(|s| s == separator).count()` does. -/
def readPT (buf : List Nat) (c : Cursor) : PResult (Nat × List Nat) :=
  if srcFails c then .err c (.ioErr c.errCode)
  else
    let n := min buf.length (c.data.length - c.inner_pos)
    let buf2 := (c.data.drop c.inner_pos).take n ++ buf.drop n
    .ok { c with inner_pos := c.inner_pos + n, pos := c.pos + n,
                 row_pos := c.row_pos +
                   (buf2.filter fun s => s = c.separator).length } (n, buf2)

/-- `BufRead::consume` for `CachedRowCursor`: advance `pos` by `amt` and
forward the consume to the source. -/
def consumePT (amt : Nat) (c : Cursor) : Cursor :=
  { c with pos := c.pos + amt,
           inner_pos := min (c.inner_pos + amt) c.data.length }

/-- `BufRead::fill_buf` for `CachedRowCursor`: pure pass-through, no
counter change. -/
def fillBufPT (c : Cursor) : Cursor := c

/-- `BufRead::read_until` for `CachedRowCursor`: forward to the source
(which appends the bytes read to the caller's buffer), then bump `row_pos` —
by 1 if the target byte is the separator, and otherwise by the number of
separator bytes occurring in the whole buffer before the first occurrence of
the target byte; the bump happens even when the source read failed, and
`pos` is never advanced. -/
def readUntilPT (b : Nat) (buf : List Nat) (c : Cursor) : PResult (Nat × List Nat) :=
  let fail := srcFails c
  let chunk := if fail then [] else readUntilTaken b (c.data.drop c.inner_pos)
  let buf2 := buf ++ chunk
  let inc := if b ≠ c.separator then
      ((buf2.takeWhile fun s => s ≠ b).filter fun s => s = c.separator).length
    else 1
  let c2 : Cursor := { c with inner_pos := c.inner_pos + chunk.length,
                              row_pos := c.row_pos + inc }
  if fail then .err c2 (.ioErr c.errCode) else .ok c2 (chunk.length, buf2)

/-- Direct mutation of the `separator` field (the spec's runtime-mutable
separator configuration, as exercised by the crate's own tests). -/
def setSeparator (b : Nat) (c : Cursor) : Cursor :=
  { c with separator := b }

/-- The cursor state carried by a non-panicking outcome: Rust returns both
`Ok` and `Err` to the caller with the cursor mutated in place, while a panic
aborts. -/
def resultState {α : Type} : PResult α → Option Cursor
  | .ok c _ => some c
  | .err c _ => some c
  | .panic => none

/-- The error carried by an `Err` outcome. -/
def resultErr {α : Type} : PResult α → Option Err
  | .err _ e => some e
  | _ => none

/-- One invocation of any operation of the public cursor interface,
including the runtime separator mutation. -/
inductive Op where
  | opReadRow : Op
  | opSetPosition : Nat → Op
  | opSetRowPosition : Nat → Op
  | opSeek : Whence → Op
  | opSeekRow : Whence → Op
  | opRead : List Nat → Op
  | opConsume : Nat → Op
  | opFillBuf : Op
  | opReadUntil : Nat → List Nat → Op
  | opSetSeparator : Nat → Op
deriving DecidableEq, Repr

/-- The cursor state after running one operation (`none` when the operation
panics). -/
def runOp : Op → Cursor → Option Cursor
  | .opReadRow, c => resultState (readRow c)
  | .opSetPosition p, c => resultState (setPosition p c)
  | .opSetRowPosition r, c => resultState (setRowPosition r c)
  | .opSeek w, c => resultState (seek w c)
  | .opSeekRow w, c => resultState (seekRow w c)
  | .opRead buf, c => resultState (readPT buf c)
  | .opConsume amt, c => some (consumePT amt c)
  | .opFillBuf, c => some (fillBufPT c)
  | .opReadUntil b buf, c => resultState (readUntilPT b buf c)
  | .opSetSeparator b, c => some (setSeparator b c)

/-- One step of the cursor's lifecycle. -/
def OpStep (c c' : Cursor) : Prop := ∃ op, runOp op c = some c'

/-- Any finite sequence of operations. -/
inductive Reach (a : Cursor) : Cursor → Prop where
  | refl : Reach a a
  | tail {b c : Cursor} : Reach a b → OpStep b c → Reach a c

/-- `readRow` returns an error only when the source read fails, leaving the
cursor unchanged and propagating the source's error payload verbatim. -/
theorem readRow_err (c c' : Cursor) (e : Err) (h : readRow c = .err c' e) :
    c' = c ∧ e = .ioErr c.errCode ∧ srcFails c = true := by
  rw [readRow] at h
  by_cases hf : srcFails c
  · rw [if_pos hf] at h
    simp only [PResult.err.injEq] at h
    exact ⟨h.1.symm, h.2.symm, hf⟩
  · rw [if_neg hf] at h
    simp only at h
    by_cases hn : innerReadLen c.data c.separator c.inner_pos ≠ 0
    · rw [if_pos hn] at h
      by_cases hg : c.granularity = 0
      · rw [if_pos hg] at h
        exact absurd h (by simp)
      · rw [if_neg hg] at h
        split at h <;> exact absurd h (by simp)
    · rw [if_neg hn] at h
      exact absurd h (by simp)

/-- `readRow` panics exactly on the `row_pos % granularity` division by
zero: the source read succeeded, was non-empty, and `granularity = 0`. -/
theorem readRow_panic (c : Cursor) (h : readRow c = .panic) :
    c.granularity = 0 ∧ srcFails c = false ∧
    innerReadLen c.data c.separator c.inner_pos ≠ 0 := by
  rw [readRow] at h
  by_cases hf : srcFails c
  · rw [if_pos hf] at h
    exact absurd h (by simp)
  · rw [if_neg hf] at h
    simp only at h
    by_cases hn : innerReadLen c.data c.separator c.inner_pos ≠ 0
    · rw [if_pos hn] at h
      by_cases hg : c.granularity = 0
      · exact ⟨hg, by simp [hf], hn⟩
      · rw [if_neg hg] at h
        split at h <;> exact absurd h (by simp)
    · rw [if_neg hn] at h
      exact absurd h (by simp)

/-- The 20-byte fixture stream of the crate's tests,
`foo\nbar\nbiz\nbaz\nbuz\n`. -/
def fixture : List Nat :=
  [102, 111, 111, 10, 98, 97, 114, 10, 98, 105, 122, 10,
   98, 97, 122, 10, 98, 117, 122, 10]

/-- C9: the constructor accepts `granularity = 0` although the data model
requires `granularity > 0`; with that value, any `read_row` that consumes at
least one byte panics at `row_pos % granularity`, and `set_row_position`
panics at `row / granularity`, so the precondition is unenforced at the
public interface. -/
theorem C9_granularity_zero_unenforced :
    (∀ data sep, (newCursor data sep 0).granularity = 0) ∧
    (∀ c, c.granularity = 0 → srcFails c = false →
      innerReadLen c.data c.separator c.inner_pos ≠ 0 → readRow c = .panic) ∧
    (∀ c r, c.granularity = 0 → setRowPosition r c = .panic) := by
  refine ⟨fun data sep => rfl, fun c hg hf hn => ?_, fun c r hg => ?_⟩
  · rw [readRow, if_neg (by rw [hf]; simp)]
    simp only
    rw [if_pos hn, if_pos hg]
  · rw [setRowPosition, if_pos hg]

/-- Witness for C9 at a concrete cursor with one unread byte. -/
theorem C9_witness :
    (newCursor [97] 10 0).granularity = 0 ∧
    readRow (newCursor [97] 10 0) = .panic ∧
    setRowPosition 5 (newCursor [97] 10 0) = .panic :=
  ⟨C9_granularity_zero_unenforced.1 [97] 10,
   C9_granularity_zero_unenforced.2.1 (newCursor [97] 10 0) rfl (by decide) (by decide),
   C9_granularity_zero_unenforced.2.2 (newCursor [97] 10 0) 5 rfl⟩

/-- C10: a `Start` target of `2^63` or more becomes negative under the
`u64 as i64` cast, so both `seek` and `seek_row` reject it with the
invalid-seek error, leaving the cursor untouched, instead of clamping to
end-of-stream. -/
theorem C10_huge_start_target_rejected (c : Cursor) (n : Nat)
    (h1 : 2 ^ 63 ≤ n) (h2 : n < 2 ^ 64) :
    seek (.start n) c = .err c .invalidSeek ∧
    seekRow (.start n) c = .err c .invalidSeek := by
  have hneg : asI64 n < 0 := by
    rw [asI64, if_neg (by omega)]
    omega
  constructor
  · show seekFinish (asI64 n) c = _
    rw [seekFinish, if_pos hneg]
  · show seekRowFinish (asI64 n) c = _
    rw [seekRowFinish, if_pos hneg]

/-- Witness for C10 at `n = 2^63` on a fresh cursor. -/
theorem C10_witness :
    2 ^ 63 ≤ 2 ^ 63 ∧ (2 ^ 63 : Nat) < 2 ^ 64 ∧
    seek (.start (2 ^ 63)) (newCursor fixture 10 1) =
      .err (newCursor fixture 10 1) .invalidSeek ∧
    seekRow (.start (2 ^ 63)) (newCursor fixture 10 1) =
      .err (newCursor fixture 10 1) .invalidSeek :=
  ⟨Nat.le_refl _, by norm_num,
   (C10_huge_start_target_rejected (newCursor fixture 10 1) (2 ^ 63)
      (Nat.le_refl _) (by norm_num)).1,
   (C10_huge_start_target_rejected (newCursor fixture 10 1) (2 ^ 63)
      (Nat.le_refl _) (by norm_num)).2⟩

/-- C7, evaluated at the failing input: a pass-through `read` into a
one-byte buffer holding a stale separator byte, against an exhausted
stream.  The read fills zero bytes, yet `row_pos` increases by 1 because
the code counts separators over the whole buffer; the slice actually
filled (the first 0 bytes) contains no separator, so the claimed increment
is 0. -/
theorem C7_read_counts_unfilled_buffer :
    readPT [10] (newCursor [] 10 1) =
      .ok { newCursor [] 10 1 with row_pos := 1 } (0, [10]) ∧
    ((([] : List Nat).take 0).filter fun s => s = 10).length = 0 := by
  constructor
  · decide
  · decide

/-- C8, evaluated at the failing inputs.  First: `read_until(65)` with a
stale copy of the target byte already in the buffer — the bytes read are
`[10, 65]`, which contain one separator before the target byte, but the
code's whole-buffer count stops at the stale byte and adds 0.  Second:
`read_until` on the separator itself at end-of-stream adds 1 to `row_pos`
although an actual row scan reads nothing and adds 0. -/
theorem C8_read_until_counts_are_wrong :
    readUntilPT 65 [65] (newCursor [10, 65] 10 1) =
      .ok { newCursor [10, 65] 10 1 with inner_pos := 2 } (2, [65, 10, 65]) ∧
    (((readUntilTaken 65 ((newCursor [10, 65] 10 1).data.drop 0)).takeWhile
        fun s => s ≠ 65).filter fun s => s = 10).length = 1 ∧
    readUntilPT 10 [] (newCursor [] 10 1) =
      .ok { newCursor [] 10 1 with row_pos := 1 } (0, []) ∧
    readRow (newCursor [] 10 1) =
      .ok { newCursor [] 10 1 with length := some 0, row_length := some 0 } 0 := by
  refine ⟨by decide, by decide, by decide, by decide⟩

/-- The cursor over `fixture` with granularity 2 after a full scan to
end-of-stream followed by `set_position(19)` (the state `seek(End(0))`
leaves behind): cache keys 0, 2 and 4. -/
def cG2 : Cursor :=
  { data := fixture, errAt := none, errCode := 0, inner_pos := 19, pos := 19,
    row_pos := 4, length := some 20, row_length := some 5, separator := 10,
    granularity := 2, cached_index := [(0, 0), (2, 8), (4, 16)] }

/-- C1, evaluated at the failing input: with granularity 2 and the cache
fully populated, `set_row_position(3)` probes the literal key `3 / 2 = 1`,
misses, falls back to the *last* cache entry `(4, 16)` — whose key 4
exceeds the target 3 — repositions there, finds `row_pos ≥ 3` at once and
returns row 4 instead of row 3. -/
theorem C1_row_lookup_starts_past_target :
    seek (.fromEnd 0) (newCursor fixture 10 2) = .ok cG2 19 ∧
    rowLookup 3 cG2 = (4, 16) ∧ 3 < (rowLookup 3 cG2).1 ∧
    setRowPosition 3 cG2 = .ok { cG2 with inner_pos := 16, pos := 16 } 4 := by
  refine ⟨?_, by decide, by decide, ?_⟩
  · simp [seek, seekFinish, setPosition, setPosStart, setPosCorrect,
          scanToEofByte, scanToBytePos, readRow, innerSeekCur, srcFails,
          innerReadLen, readUntilTaken, lastBelow, newCursor, containsKey,
          insertSorted, asI64, fixture, cG2]
  · simp [setRowPosition, rowLookup, getKV, scanToRowPos, readRow,
          innerSeekCur, srcFails, innerReadLen, readUntilTaken, newCursor,
          containsKey, insertSorted, fixture, cG2]

/-- The cursor over the two-byte stream `ab` with separator `a` after a
full scan to end-of-stream: two rows seen, totals fixed at 2 rows and 2
bytes. -/
def cAB : Cursor :=
  { data := [97, 98], errAt := none, errCode := 0, inner_pos := 2, pos := 2,
    row_pos := 2, length := some 2, row_length := some 2, separator := 97,
    granularity := 1, cached_index := [(0, 0), (1, 1), (2, 2)] }

/-- `cAB` after `set_position(0)`. -/
def cAB0 : Cursor := { cAB with inner_pos := 0, pos := 0, row_pos := 0 }

/-- `cAB0` with the separator changed to `b`, after one row scan. -/
def cABr : Cursor :=
  { cAB0 with separator := 98, inner_pos := 2, pos := 2, row_pos := 1 }

/-- `cABr` after the end-of-stream observation that rewrites the totals. -/
def cABe : Cursor := { cABr with row_length := some 1, length := some 2 }

/-- C5, counterexample: after `row_length` has been fixed at 2, changing
the separator and rescanning to end-of-stream overwrites it with 1 — the
end-of-stream branch of `read_row` assigns unconditionally, so `total_rows`
is not immutable once set. -/
theorem C5_total_rows_changes_after_separator_change :
    scanToEofByte (newCursor [97, 98] 97 1) = .ok cAB () ∧
    cAB.row_length = some 2 ∧
    setPosition 0 cAB = .ok cAB0 0 ∧
    readRow (setSeparator 98 cAB0) = .ok cABr 2 ∧
    readRow cABr = .ok cABe 0 ∧
    cABe.row_length = some 1 := by
  refine ⟨?_, by decide, ?_, by decide, by decide, by decide⟩
  · simp [scanToEofByte, readRow, srcFails, innerReadLen, readUntilTaken,
          newCursor, containsKey, insertSorted, cAB]
  · simp [setPosition, setPosStart, setPosCorrect, scanToBytePos, readRow,
          innerSeekCur, srcFails, innerReadLen, readUntilTaken, lastBelow,
          containsKey, insertSorted, cAB, cAB0]

/-- C5, amended behaviour: every end-of-stream observation of `read_row`
assigns `length := byte_pos` and `row_length := row_pos` unconditionally;
re-observation is idempotent exactly when the counters still match the
stored totals. -/
theorem C5_eof_overwrites_totals (c c' : Cursor) (h : readRow c = .ok c' 0) :
    c'.length = some c.pos ∧ c'.row_length = some c.row_pos ∧
    ((c.length = some c.pos ∧ c.row_length = some c.row_pos) →
      (c'.length = c.length ∧ c'.row_length = c.row_length)) := by
  obtain ⟨-, -, -, -, -, -, -, h0, -⟩ := readRow_ok c c' 0 h
  obtain ⟨-, -, hl, hr, -⟩ := h0 rfl
  exact ⟨hl, hr, fun hp => ⟨by rw [hl, hp.1], by rw [hr, hp.2]⟩⟩

/-- The empty-stream cursor after its first end-of-stream observation. -/
def cEmptyEof : Cursor :=
  { newCursor [] 10 1 with length := some 0, row_length := some 0 }

/-- Witness for the amended C5 on the empty stream. -/
theorem C5_witness :
    readRow (newCursor [] 10 1) = .ok cEmptyEof 0 ∧
    (cEmptyEof.length = some 0 ∧ cEmptyEof.row_length = some 0 ∧
      (((newCursor [] 10 1).length = some 0 ∧
        (newCursor [] 10 1).row_length = some 0) →
        (cEmptyEof.length = (newCursor [] 10 1).length ∧
         cEmptyEof.row_length = (newCursor [] 10 1).row_length))) :=
  ⟨by decide, C5_eof_overwrites_totals (newCursor [] 10 1) cEmptyEof (by decide)⟩

/-- A cursor whose source raises I/O error 7 once its read position
reaches byte 1: the first row scan succeeds, the second fails. -/
def cErrSrc : Cursor :=
  { newCursor [10, 11, 10] 10 1 with errAt := some 1, errCode := 7 }

/-- `cErrSrc` after its first (successful) row scan. -/
def cErrMid : Cursor :=
  { cErrSrc with inner_pos := 1, pos := 1, row_pos := 1,
                 cached_index := [(0, 0), (1, 1)] }

/-- C4, evaluated at the failing input: a source error during the forward
scan loop of `set_row_position` panics (the loop `unwrap`s each `read_row`
result), while the same error is propagated verbatim — payload unchanged —
by `read_row` itself and by `set_position`. -/
theorem C4_set_row_position_panics_on_io_error :
    setRowPosition 2 cErrSrc = .panic ∧
    readRow cErrMid = .err cErrMid (.ioErr 7) ∧
    setPosition 2 cErrSrc = .err cErrMid (.ioErr 7) := by
  refine ⟨?_, by decide, ?_⟩
  · simp [setRowPosition, rowLookup, getKV, scanToRowPos, readRow,
          innerSeekCur, srcFails, innerReadLen, readUntilTaken, newCursor,
          containsKey, insertSorted, cErrSrc, cErrMid]
  · simp [setPosition, setPosStart, setPosCorrect, scanToBytePos, readRow,
          innerSeekCur, srcFails, innerReadLen, readUntilTaken, lastBelow,
          newCursor, containsKey, insertSorted, cErrSrc, cErrMid]

/-- The cache invariants of the data model: the permanent `(0, 0)` entry,
strictly increasing keys, and every positive key a multiple of the
granularity. -/
def cacheInv (c : Cursor) : Prop :=
  (0, 0) ∈ c.cached_index ∧ cacheSorted c.cached_index ∧
  ∀ kv ∈ c.cached_index, kv.1 ≠ 0 → kv.1 % c.granularity = 0

instance (c : Cursor) : Decidable (cacheInv c) :=
  inferInstanceAs (Decidable ((0, 0) ∈ c.cached_index ∧
    cacheSorted c.cached_index ∧
    ∀ kv ∈ c.cached_index, kv.1 ≠ 0 → kv.1 % c.granularity = 0))

/-- Cache evolution from one state to another: same granularity, the old
cache (pairs and order included) embedded in the new one, invariants
carried over. -/
def cachePresTo (c c' : Cursor) : Prop :=
  c'.granularity = c.granularity ∧
  c.cached_index.Sublist c'.cached_index ∧
  (cacheInv c → cacheInv c')

theorem cachePresTo_refl (c : Cursor) : cachePresTo c c :=
  ⟨rfl, List.Sublist.refl _, id⟩

theorem cachePresTo_trans {a b c : Cursor} (h1 : cachePresTo a b)
    (h2 : cachePresTo b c) : cachePresTo a c :=
  ⟨h2.1.trans h1.1, h1.2.1.trans h2.2.1, fun hi => h2.2.2 (h1.2.2 hi)⟩

theorem cachePresTo_of_eq {c c' : Cursor}
    (h1 : c'.granularity = c.granularity)
    (h2 : c'.cached_index = c.cached_index) : cachePresTo c c' := by
  refine ⟨h1, h2 ▸ List.Sublist.refl _, fun hi => ?_⟩
  obtain ⟨hm, hs, hmul⟩ := hi
  exact ⟨h2 ▸ hm, h2 ▸ hs, fun kv hkv hkz => by
    rw [h1]
    exact hmul kv (h2 ▸ hkv) hkz⟩

/-- Every operation of a non-panicking `PResult` evolves the cache
according to `cachePresTo`. -/
def CachePres {α : Type} (c : Cursor) (r : PResult α) : Prop :=
  ∀ c', resultState r = some c' → cachePresTo c c'

theorem readRow_cachePresTo (c c' : Cursor) (n : Nat)
    (h : readRow c = .ok c' n) : cachePresTo c c' := by
  obtain ⟨-, -, -, -, hg, -, -, h0, hs⟩ := readRow_ok c c' n h
  by_cases hn : n = 0
  · obtain ⟨-, hcache, -, -, -⟩ := h0 hn
    exact cachePresTo_of_eq hg hcache
  · obtain ⟨hrow, -, -, -, -, -, hins⟩ := hs hn
    by_cases hcond : c'.row_pos % c.granularity = 0 ∧
        containsKey c'.row_pos c.cached_index = false
    · rw [if_pos hcond] at hins
      refine ⟨hg, by rw [hins]; exact sublist_insertSorted _ _ _ hcond.2,
              fun hi => ?_⟩
      obtain ⟨hm, hsrt, hmul⟩ := hi
      unfold cacheInv
      rw [hins, hg]
      refine ⟨(sublist_insertSorted _ _ _ hcond.2).subset hm,
              cacheSorted_insertSorted _ _ _ hsrt hcond.2, fun kv hkv hkz => ?_⟩
      rcases mem_insertSorted _ _ _ _ hkv with he | he
      · rw [he]
        exact hcond.1
      · exact hmul kv he hkz
    · rw [if_neg hcond] at hins
      exact cachePresTo_of_eq hg hins

theorem cachePres_readRow (c : Cursor) : CachePres c (readRow c) := by
  intro c' h
  cases hr : readRow c with
  | ok c2 n =>
    rw [hr] at h
    simp only [resultState, Option.some.injEq] at h
    exact h ▸ readRow_cachePresTo c c2 n hr
  | err c2 e =>
    rw [hr] at h
    simp only [resultState, Option.some.injEq] at h
    obtain ⟨rfl, -, -⟩ := readRow_err c c2 e hr
    exact h ▸ cachePresTo_refl c2
  | panic =>
    rw [hr] at h
    simp only [resultState] at h
    exact Option.noConfusion h

theorem cachePres_scanToBytePos (target : Nat) (st : Cursor) :
    CachePres st (scanToBytePos target st) := by
  induction st using scanToBytePos.induct target with
  | case1 x h1 st' hr =>
    intro c' hres
    rw [scanToBytePos, dif_pos h1, hr] at hres
    simp only [resultState, Option.some.injEq, if_true] at hres
    exact hres ▸ readRow_cachePresTo _ _ _ hr
  | case2 x h1 st' n hr hn ih =>
    intro c' hres
    rw [scanToBytePos, dif_pos h1, hr] at hres
    simp only [if_neg hn] at hres
    exact cachePresTo_trans (readRow_cachePresTo _ _ _ hr) (ih c' hres)
  | case3 x h1 st' e hr =>
    intro c' hres
    rw [scanToBytePos, dif_pos h1, hr] at hres
    simp only [resultState, Option.some.injEq] at hres
    obtain ⟨rfl, -, -⟩ := readRow_err _ _ _ hr
    exact hres ▸ cachePresTo_refl _
  | case4 x h1 hr =>
    intro c' hres
    rw [scanToBytePos, dif_pos h1, hr] at hres
    simp only [resultState] at hres
    exact Option.noConfusion hres
  | case5 x h1 =>
    intro c' hres
    rw [scanToBytePos, dif_neg h1] at hres
    simp only [resultState, Option.some.injEq] at hres
    exact hres ▸ cachePresTo_refl _

theorem cachePres_scanToRowPos (target : Nat) (st : Cursor) :
    CachePres st (scanToRowPos target st) := by
  induction st using scanToRowPos.induct target with
  | case1 x h1 st' hr =>
    intro c' hres
    rw [scanToRowPos, dif_pos h1, hr] at hres
    simp only [resultState, Option.some.injEq, if_true] at hres
    exact hres ▸ readRow_cachePresTo _ _ _ hr
  | case2 x h1 st' n hr hn ih =>
    intro c' hres
    rw [scanToRowPos, dif_pos h1, hr] at hres
    simp only [if_neg hn] at hres
    exact cachePresTo_trans (readRow_cachePresTo _ _ _ hr) (ih c' hres)
  | case3 x h1 st' e hr =>
    intro c' hres
    rw [scanToRowPos, dif_pos h1, hr] at hres
    simp only [resultState] at hres
    exact Option.noConfusion hres
  | case4 x h1 hr =>
    intro c' hres
    rw [scanToRowPos, dif_pos h1, hr] at hres
    simp only [resultState] at hres
    exact Option.noConfusion hres
  | case5 x h1 =>
    intro c' hres
    rw [scanToRowPos, dif_neg h1] at hres
    simp only [resultState, Option.some.injEq] at hres
    exact hres ▸ cachePresTo_refl _

theorem cachePres_scanToEofByte (st : Cursor) :
    CachePres st (scanToEofByte st) := by
  induction st using scanToEofByte.induct with
  | case1 x h1 st' n hr ih =>
    intro c' hres
    rw [scanToEofByte, dif_pos h1, hr] at hres
    exact cachePresTo_trans (readRow_cachePresTo _ _ _ hr) (ih c' hres)
  | case2 x h1 st' e hr =>
    intro c' hres
    rw [scanToEofByte, dif_pos h1, hr] at hres
    simp only [resultState, Option.some.injEq] at hres
    obtain ⟨rfl, -, -⟩ := readRow_err _ _ _ hr
    exact hres ▸ cachePresTo_refl _
  | case3 x h1 hr =>
    intro c' hres
    rw [scanToEofByte, dif_pos h1, hr] at hres
    simp only [resultState] at hres
    exact Option.noConfusion hres
  | case4 x h1 =>
    intro c' hres
    rw [scanToEofByte, dif_neg h1] at hres
    simp only [resultState, Option.some.injEq] at hres
    exact hres ▸ cachePresTo_refl _

theorem cachePres_scanToEofRow (st : Cursor) :
    CachePres st (scanToEofRow st) := by
  induction st using scanToEofRow.induct with
  | case1 x h1 st' n hr ih =>
    intro c' hres
    rw [scanToEofRow, dif_pos h1, hr] at hres
    exact cachePresTo_trans (readRow_cachePresTo _ _ _ hr) (ih c' hres)
  | case2 x h1 st' e hr =>
    intro c' hres
    rw [scanToEofRow, dif_pos h1, hr] at hres
    simp only [resultState, Option.some.injEq] at hres
    obtain ⟨rfl, -, -⟩ := readRow_err _ _ _ hr
    exact hres ▸ cachePresTo_refl _
  | case3 x h1 hr =>
    intro c' hres
    rw [scanToEofRow, dif_pos h1, hr] at hres
    simp only [resultState] at hres
    exact Option.noConfusion hres
  | case4 x h1 =>
    intro c' hres
    rw [scanToEofRow, dif_neg h1] at hres
    simp only [resultState, Option.some.injEq] at hres
    exact hres ▸ cachePresTo_refl _

theorem cachePres_innerSeekCur (d : Int) (c : Cursor) :
    CachePres c (innerSeekCur d c) := by
  intro c' h
  simp only [innerSeekCur] at h
  split at h
  · simp only [resultState, Option.some.injEq] at h
    exact h ▸ cachePresTo_refl c
  · simp only [resultState, Option.some.injEq] at h
    exact h ▸ cachePresTo_of_eq rfl rfl

theorem cachePres_setPosStart (p : Nat) (c : Cursor) :
    CachePres c (setPosStart p c) := by
  intro c' h
  simp only [setPosStart] at h
  cases hs : innerSeekCur (((lastBelow p c.cached_index).2 : Int) - (c.pos : Int)) c with
  | ok c1 np =>
    rw [hs] at h
    simp only [resultState, Option.some.injEq] at h
    exact cachePresTo_trans (cachePres_innerSeekCur _ c c1 (by rw [hs]; rfl))
      (h ▸ cachePresTo_of_eq rfl rfl)
  | err c1 e =>
    rw [hs] at h
    simp only [resultState, Option.some.injEq] at h
    exact h ▸ cachePres_innerSeekCur _ c c1 (by rw [hs]; rfl)
  | panic =>
    rw [hs] at h
    simp only [resultState] at h
    exact Option.noConfusion h

theorem cachePres_setPosCorrect (p : Nat) (c : Cursor) :
    CachePres c (setPosCorrect p c) := by
  intro c' h
  rw [setPosCorrect] at h
  by_cases h1 : c.pos > p
  · rw [if_pos h1] at h
    by_cases h2 : c.row_pos = 0
    · rw [if_pos h2] at h
      simp only [resultState] at h
      exact Option.noConfusion h
    · rw [if_neg h2] at h
      cases hs : innerSeekCur ((p : Int) - (c.pos : Int)) c with
      | ok c4 u =>
        rw [hs] at h
        simp only [resultState, Option.some.injEq] at h
        exact cachePresTo_trans (cachePres_innerSeekCur _ c c4 (by rw [hs]; rfl))
          (h ▸ cachePresTo_of_eq rfl rfl)
      | err c4 e =>
        rw [hs] at h
        simp only [resultState, Option.some.injEq] at h
        exact h ▸ cachePres_innerSeekCur _ c c4 (by rw [hs]; rfl)
      | panic =>
        rw [hs] at h
        simp only [resultState] at h
        exact Option.noConfusion h
  · rw [if_neg h1] at h
    simp only [resultState, Option.some.injEq] at h
    exact h ▸ cachePresTo_refl c

theorem cachePres_setPosition (p : Nat) (c : Cursor) :
    CachePres c (setPosition p c) := by
  intro c' h
  rw [setPosition] at h
  cases h1 : setPosStart p c with
  | ok c2 u =>
    rw [h1] at h
    simp only [] at h
    cases h2 : scanToBytePos p c2 with
    | ok c3 u2 =>
      rw [h2] at h
      exact cachePresTo_trans (cachePres_setPosStart p c c2 (by rw [h1]; rfl))
        (cachePresTo_trans (cachePres_scanToBytePos p c2 c3 (by rw [h2]; rfl))
          (cachePres_setPosCorrect p c3 c' h))
    | err c3 e =>
      rw [h2] at h
      simp only [resultState, Option.some.injEq] at h
      exact cachePresTo_trans (cachePres_setPosStart p c c2 (by rw [h1]; rfl))
        (h ▸ cachePres_scanToBytePos p c2 c3 (by rw [h2]; rfl))
    | panic =>
      rw [h2] at h
      simp only [resultState] at h
      exact Option.noConfusion h
  | err c2 e =>
    rw [h1] at h
    simp only [resultState, Option.some.injEq] at h
    exact h ▸ cachePres_setPosStart p c c2 (by rw [h1]; rfl)
  | panic =>
    rw [h1] at h
    simp only [resultState] at h
    exact Option.noConfusion h

theorem cachePres_setRowPosition (r : Nat) (c : Cursor) :
    CachePres c (setRowPosition r c) := by
  intro c' h
  rw [setRowPosition] at h
  by_cases hg : c.granularity = 0
  · rw [if_pos hg] at h
    simp only [resultState] at h
    exact Option.noConfusion h
  · rw [if_neg hg] at h
    simp only at h
    cases h1 : innerSeekCur (((rowLookup r c).2 : Int) - (c.pos : Int)) c with
    | ok c1 u =>
      rw [h1] at h
      simp only [] at h
      cases h2 : scanToRowPos r { c1 with row_pos := (rowLookup r c).1,
                                          pos := (rowLookup r c).2 } with
      | ok c3 u2 =>
        rw [h2] at h
        simp only [resultState, Option.some.injEq] at h
        refine cachePresTo_trans (cachePres_innerSeekCur _ c c1 (by rw [h1]; rfl))
          (cachePresTo_trans (cachePresTo_of_eq rfl rfl)
            (h ▸ cachePres_scanToRowPos r
              { c1 with row_pos := (rowLookup r c).1, pos := (rowLookup r c).2 }
              c3 (by rw [h2]; rfl)))
      | err c3 e =>
        rw [h2] at h
        simp only [resultState, Option.some.injEq] at h
        refine cachePresTo_trans (cachePres_innerSeekCur _ c c1 (by rw [h1]; rfl))
          (cachePresTo_trans (cachePresTo_of_eq rfl rfl)
            (h ▸ cachePres_scanToRowPos r
              { c1 with row_pos := (rowLookup r c).1, pos := (rowLookup r c).2 }
              c3 (by rw [h2]; rfl)))
      | panic =>
        rw [h2] at h
        simp only [resultState] at h
        exact Option.noConfusion h
    | err c1 e =>
      rw [h1] at h
      simp only [resultState, Option.some.injEq] at h
      exact h ▸ cachePres_innerSeekCur _ c c1 (by rw [h1]; rfl)
    | panic =>
      rw [h1] at h
      simp only [resultState] at h
      exact Option.noConfusion h

theorem cachePres_seekFinish (t : Int) (c : Cursor) :
    CachePres c (seekFinish t c) := by
  intro c' h
  rw [seekFinish] at h
  by_cases h1 : t < 0
  · rw [if_pos h1] at h
    simp only [resultState, Option.some.injEq] at h
    exact h ▸ cachePresTo_refl c
  · rw [if_neg h1] at h
    exact cachePres_setPosition _ c c' h

theorem cachePres_seek (w : Whence) (c : Cursor) : CachePres c (seek w c) := by
  intro c' h
  cases w with
  | start n => exact cachePres_seekFinish _ c c' h
  | current m => exact cachePres_seekFinish _ c c' h
  | fromEnd m =>
    rw [seek] at h
    cases h1 : scanToEofByte c with
    | ok c1 u =>
      rw [h1] at h
      simp only [] at h
      cases h2 : c1.length with
      | some len =>
        rw [h2] at h
        exact cachePresTo_trans (cachePres_scanToEofByte c c1 (by rw [h1]; rfl))
          (cachePres_seekFinish _ c1 c' h)
      | none =>
        rw [h2] at h
        simp only [resultState] at h
        exact Option.noConfusion h
    | err c1 e =>
      rw [h1] at h
      simp only [resultState, Option.some.injEq] at h
      exact h ▸ cachePres_scanToEofByte c c1 (by rw [h1]; rfl)
    | panic =>
      rw [h1] at h
      simp only [resultState] at h
      exact Option.noConfusion h

theorem cachePres_seekRowFinish (t : Int) (c : Cursor) :
    CachePres c (seekRowFinish t c) := by
  intro c' h
  rw [seekRowFinish] at h
  by_cases h1 : t < 0
  · rw [if_pos h1] at h
    simp only [resultState, Option.some.injEq] at h
    exact h ▸ cachePresTo_refl c
  · rw [if_neg h1] at h
    exact cachePres_setRowPosition _ c c' h

theorem cachePres_seekRow (w : Whence) (c : Cursor) :
    CachePres c (seekRow w c) := by
  intro c' h
  cases w with
  | start n => exact cachePres_seekRowFinish _ c c' h
  | current m => exact cachePres_seekRowFinish _ c c' h
  | fromEnd m =>
    rw [seekRow] at h
    cases h1 : scanToEofRow c with
    | ok c1 u =>
      rw [h1] at h
      simp only [] at h
      cases h2 : c1.row_length with
      | some len =>
        rw [h2] at h
        exact cachePresTo_trans (cachePres_scanToEofRow c c1 (by rw [h1]; rfl))
          (cachePres_seekRowFinish _ c1 c' h)
      | none =>
        rw [h2] at h
        simp only [resultState] at h
        exact Option.noConfusion h
    | err c1 e =>
      rw [h1] at h
      simp only [resultState, Option.some.injEq] at h
      exact h ▸ cachePres_scanToEofRow c c1 (by rw [h1]; rfl)
    | panic =>
      rw [h1] at h
      simp only [resultState] at h
      exact Option.noConfusion h

theorem cachePres_readPT (buf : List Nat) (c : Cursor) :
    CachePres c (readPT buf c) := by
  intro c' h
  rw [readPT] at h
  by_cases hf : srcFails c
  · rw [if_pos hf] at h
    simp only [resultState, Option.some.injEq] at h
    exact h ▸ cachePresTo_refl c
  · rw [if_neg hf] at h
    simp only [resultState, Option.some.injEq] at h
    exact h ▸ cachePresTo_of_eq rfl rfl

theorem cachePres_readUntilPT (b : Nat) (buf : List Nat) (c : Cursor) :
    CachePres c (readUntilPT b buf c) := by
  intro c' h
  simp only [readUntilPT] at h
  split at h <;>
    (simp only [resultState, Option.some.injEq] at h
     exact h ▸ cachePresTo_of_eq rfl rfl)

theorem cachePresTo_runOp (op : Op) (c c' : Cursor) (h : runOp op c = some c') :
    cachePresTo c c' := by
  cases op with
  | opReadRow => exact cachePres_readRow c c' h
  | opSetPosition p => exact cachePres_setPosition p c c' h
  | opSetRowPosition r => exact cachePres_setRowPosition r c c' h
  | opSeek w => exact cachePres_seek w c c' h
  | opSeekRow w => exact cachePres_seekRow w c c' h
  | opRead buf => exact cachePres_readPT buf c c' h
  | opConsume amt =>
    simp only [runOp, Option.some.injEq] at h
    exact h ▸ cachePresTo_of_eq rfl rfl
  | opFillBuf =>
    simp only [runOp, Option.some.injEq] at h
    exact h ▸ cachePresTo_refl c
  | opReadUntil b buf => exact cachePres_readUntilPT b buf c c' h
  | opSetSeparator b =>
    simp only [runOp, Option.some.injEq] at h
    exact h ▸ cachePresTo_of_eq rfl rfl

theorem cachePresTo_reach {a b : Cursor} (h : Reach a b) : cachePresTo a b := by
  induction h with
  | refl => exact cachePresTo_refl a
  | tail hr hs ih =>
    obtain ⟨op, hop⟩ := hs
    exact cachePresTo_trans ih (cachePresTo_runOp op _ _ hop)

theorem cacheInv_newCursor (data : List Nat) (sep g : Nat) :
    cacheInv (newCursor data sep g) := by
  refine ⟨by simp [newCursor], by simp [newCursor, cacheSorted], ?_⟩
  intro kv hkv hne
  simp only [newCursor, List.mem_singleton] at hkv
  rw [hkv] at hne
  exact absurd rfl hne

/-- C6: across every operation sequence from a freshly constructed cursor,
the cache keeps the `(0, 0)` entry, stays strictly key-sorted with every
positive key a multiple of the construction granularity, and never loses or
revises an entry (the earlier cache is a sublist — pairs, values and order
included — of the later one); moreover `read_row` inserts
`(row_pos, byte_pos)` exactly when the new `row_pos` is a positive multiple
of the granularity that is not yet a key. -/
theorem C6_cache_invariants (data : List Nat) (sep g : Nat)
    (c c' c2 : Cursor) (n : Nat)
    (h1 : Reach (newCursor data sep g) c) (h2 : Reach c c') :
    cacheInv c' ∧ c'.granularity = g ∧
    c.cached_index.Sublist c'.cached_index ∧
    (readRow c' = .ok c2 n → n ≠ 0 →
      0 < c2.row_pos ∧
      (if c2.row_pos % g = 0 ∧ containsKey c2.row_pos c'.cached_index = false
       then c2.cached_index = insertSorted c2.row_pos c2.pos c'.cached_index
       else c2.cached_index = c'.cached_index)) := by
  have hAB := cachePresTo_reach h1
  have hBC := cachePresTo_reach h2
  have hAC := cachePresTo_trans hAB hBC
  have hgr : c'.granularity = g := hAC.1
  refine ⟨hAC.2.2 (cacheInv_newCursor data sep g), hgr, hBC.2.1, fun hr hn => ?_⟩
  obtain ⟨-, -, -, -, -, -, -, -, hs⟩ := readRow_ok c' c2 n hr
  obtain ⟨hrow, -, -, -, -, -, hins⟩ := hs hn
  rw [hgr] at hins
  exact ⟨by omega, hins⟩

/-- The two-byte cursor used by the C6 witness, before any operation. -/
def c0W : Cursor := newCursor [97, 10] 10 1

/-- `c0W` after one row scan: the row `a\n` was read and sampled. -/
def cW : Cursor :=
  { c0W with inner_pos := 2, pos := 2, row_pos := 1,
             cached_index := [(0, 0), (1, 2)] }

/-- Witness for C6 on a concrete two-byte stream, with the `read_row`
clause exercised by an actual non-empty read. -/
theorem C6_witness :
    readRow c0W = .ok cW 2 ∧
    (cacheInv c0W ∧ c0W.granularity = 1 ∧
     c0W.cached_index.Sublist c0W.cached_index ∧
     (readRow c0W = .ok cW 2 → 2 ≠ 0 →
       0 < cW.row_pos ∧
       (if cW.row_pos % 1 = 0 ∧ containsKey cW.row_pos c0W.cached_index = false
        then cW.cached_index = insertSorted cW.row_pos cW.pos c0W.cached_index
        else cW.cached_index = c0W.cached_index))) :=
  ⟨by decide,
   C6_cache_invariants [97, 10] 10 1 c0W c0W cW 2 Reach.refl Reach.refl⟩

theorem srcFails_of_errAt_none (c : Cursor) (h : c.errAt = none) :
    srcFails c = false := by
  rw [srcFails, h]

/-- A non-failing, counter-consistent scan loop always ends successfully with
`pos ≥ target` or at end-of-stream, never decreasing either counter and
keeping the cursor consistent with the source. -/
theorem scanToBytePos_spec (target : Nat) (st : Cursor) :
    st.errAt = none → st.granularity ≠ 0 → st.inner_pos = st.pos →
    st.pos ≤ st.data.length →
    ∃ st', scanToBytePos target st = .ok st' () ∧
      st'.data = st.data ∧ st'.errAt = none ∧
      st'.granularity = st.granularity ∧ st'.inner_pos = st'.pos ∧
      st'.pos ≤ st.data.length ∧ st.pos ≤ st'.pos ∧
      st.row_pos ≤ st'.row_pos ∧
      (target ≤ st'.pos ∨ st'.pos = st.data.length) ∧
      (target < st'.pos → (st.row_pos < st'.row_pos ∨ target < st.pos)) := by
  induction st using scanToBytePos.induct target with
  | case1 x h1 st1 hr =>
    intro he hg hsync hle
    obtain ⟨hd, herr, -, -, hgr, hip, hpos, h0, -⟩ := readRow_ok x st1 0 hr
    obtain ⟨hrow, -, -, -, hlen⟩ := h0 rfl
    refine ⟨st1, ?_, hd, by rw [herr, he], hgr, by omega, by omega, by omega,
            by omega, ?_, by omega⟩
    · rw [scanToBytePos, dif_pos h1, hr]
      simp only [if_true]
    · right
      omega
  | case2 x h1 st1 n hr hn ih =>
    intro he hg hsync hle
    obtain ⟨hd, herr, -, -, hgr, hip, hpos, -, hs⟩ := readRow_ok x st1 n hr
    obtain ⟨hrow, -, -, hlt, hle2, -, -⟩ := hs hn
    have hdl : st1.data.length = x.data.length := by rw [hd]
    obtain ⟨st', hscan, hd', herr', hgr', hsync', hle', hge', hrow', hdisj, hover⟩ :=
      ih (by rw [herr, he]) (by rw [hgr]; exact hg) (by omega) (by omega)
    refine ⟨st', ?_, by rw [hd', hd], herr', by rw [hgr', hgr], hsync',
            by omega, by omega, by omega, ?_, fun hov => Or.inl ?_⟩
    · rw [scanToBytePos, dif_pos h1, hr]
      simp only [if_neg hn]
      exact hscan
    · rcases hdisj with hc | hc
      · exact Or.inl hc
      · right
        omega
    · rcases hover hov with hc | hc <;> omega
  | case3 x h1 st1 e hr =>
    intro he hg hsync hle
    obtain ⟨-, -, hf⟩ := readRow_err x st1 e hr
    rw [srcFails_of_errAt_none x he] at hf
    exact absurd hf (by simp)
  | case4 x h1 hr =>
    intro he hg hsync hle
    obtain ⟨hg0, -, -⟩ := readRow_panic x hr
    exact absurd hg0 hg
  | case5 x h1 =>
    intro he hg hsync hle
    refine ⟨x, ?_, rfl, he, rfl, hsync, hle, le_refl _, le_refl _,
            Or.inl (by omega), fun hov => Or.inr (by omega)⟩
    rw [scanToBytePos, dif_neg h1]

/-- When the cursor's byte position agrees with the source's position, the
relative seek `inner.seek(Current(target - pos))` lands exactly on
`target`. -/
theorem innerSeekCur_sync (c : Cursor) (target : Nat)
    (hsync : c.inner_pos = c.pos) :
    innerSeekCur ((target : Int) - (c.pos : Int)) c =
      .ok { c with inner_pos := target } target := by
  have ht : (c.inner_pos : Int) + ((target : Int) - (c.pos : Int)) =
      (target : Int) := by
    rw [hsync]; ring
  simp only [innerSeekCur, ht]
  rw [if_neg (Int.not_lt.mpr (Int.natCast_nonneg target))]
  rw [Int.toNat_natCast]

theorem lastBelow_spec (t : Nat) (l : List (Nat × Nat)) :
    lastBelow t l = (0, 0) ∨ (lastBelow t l ∈ l ∧ (lastBelow t l).2 < t) := by
  rw [lastBelow]
  cases hg : (l.takeWhile fun kv => kv.2 < t).getLast? with
  | none => simp
  | some kv =>
    right
    have hm : kv ∈ l.takeWhile fun kv => kv.2 < t := List.mem_of_mem_getLast? hg
    have hp := List.mem_takeWhile_imp hm
    simp only [Option.getD_some]
    exact ⟨(List.takeWhile_sublist _).subset hm, of_decide_eq_true hp⟩

/-- C2: under the cursor's own consistency invariants, `set_position(p)`
returns `min p total_length` and leaves `position()` equal to it, clamping
out-of-range forward targets to end-of-stream without error; and whenever
the forward scan overshoots (`pos > p`), the correction seeks the source
backward by the overshoot, pins `pos` to `p`, and decrements `row_pos` by
exactly one. -/
theorem C2_set_position_returns_min (c : Cursor) (p : Nat)
    (he : c.errAt = none) (hg : c.granularity ≠ 0)
    (hsync : c.inner_pos = c.pos) (hlen : c.pos ≤ c.data.length)
    (hcache : ∀ kv ∈ c.cached_index, kv.2 ≤ c.data.length) :
    (∃ c', setPosition p c = .ok c' (min p c.data.length) ∧
      position c' = min p c.data.length ∧ c'.inner_pos = c'.pos ∧
      c'.data = c.data) ∧
    (∀ st, p < st.pos → st.inner_pos = st.pos → 0 < st.row_pos →
      setPosCorrect p st =
        .ok { st with inner_pos := p, pos := p, row_pos := st.row_pos - 1 } p) := by
  constructor
  · have hkv : (lastBelow p c.cached_index).2 ≤ c.data.length ∧
        (lastBelow p c.cached_index).2 ≤ p := by
      rcases lastBelow_spec p c.cached_index with h | ⟨hm, hlt⟩
      · rw [h]
        exact ⟨Nat.zero_le _, Nat.zero_le _⟩
      · exact ⟨hcache _ hm, Nat.le_of_lt hlt⟩
    have hstart : setPosStart p c =
        .ok { c with inner_pos := (lastBelow p c.cached_index).2,
                     pos := (lastBelow p c.cached_index).2,
                     row_pos := (lastBelow p c.cached_index).1 } () := by
      simp only [setPosStart, innerSeekCur_sync c (lastBelow p c.cached_index).2 hsync]
    obtain ⟨st3, hscan, hd3, herr3, hgr3, hsync3, hle3, hge3, hrow3, hdisj, hover⟩ :=
      scanToBytePos_spec p
        { c with inner_pos := (lastBelow p c.cached_index).2,
                 pos := (lastBelow p c.cached_index).2,
                 row_pos := (lastBelow p c.cached_index).1 }
        he hg rfl hkv.1
    have hsetpos : setPosition p c = setPosCorrect p st3 := by
      simp only [setPosition, hstart, hscan]
    have hle3' : st3.pos ≤ c.data.length := hle3
    have hdisj' : p ≤ st3.pos ∨ st3.pos = c.data.length := hdisj
    by_cases hov : st3.pos > p
    · have hrowpos : 0 < st3.row_pos := by
        rcases hover (by omega) with hc | hc
        · have hc' : (lastBelow p c.cached_index).1 < st3.row_pos := hc
          omega
        · have hc' : p < (lastBelow p c.cached_index).2 := hc
          omega
      have hcorr : setPosCorrect p st3 =
          .ok { st3 with inner_pos := p, pos := p,
                         row_pos := st3.row_pos - 1 } p := by
        rw [setPosCorrect, if_pos hov, if_neg (by omega)]
        simp only [innerSeekCur_sync st3 p hsync3]
      have hval : min p c.data.length = p := by omega
      refine ⟨{ st3 with inner_pos := p, pos := p, row_pos := st3.row_pos - 1 },
              ?_, ?_, rfl, ?_⟩
      · rw [hsetpos, hcorr, hval]
      · rw [position, hval]
      · have : st3.data = c.data := hd3
        exact this
    · have hcorr : setPosCorrect p st3 = .ok st3 st3.pos := by
        rw [setPosCorrect, if_neg hov]
      have hval : min p c.data.length = st3.pos := by omega
      refine ⟨st3, ?_, ?_, hsync3, ?_⟩
      · rw [hsetpos, hcorr, hval]
      · rw [position, hval]
      · exact hd3
  · intro st h1 h2 h3
    rw [setPosCorrect, if_pos h1, if_neg (by omega)]
    simp only [innerSeekCur_sync st p h2]

/-- Witness for C2 on the fixture at target 12. -/
theorem C2_witness :
    (newCursor fixture 10 1).errAt = none ∧
    (newCursor fixture 10 1).granularity ≠ 0 ∧
    ((∃ c', setPosition 12 (newCursor fixture 10 1) =
        .ok c' (min 12 (newCursor fixture 10 1).data.length) ∧
      position c' = min 12 (newCursor fixture 10 1).data.length ∧
      c'.inner_pos = c'.pos ∧ c'.data = (newCursor fixture 10 1).data) ∧
     (∀ st, 12 < st.pos → st.inner_pos = st.pos → 0 < st.row_pos →
       setPosCorrect 12 st =
         .ok { st with inner_pos := 12, pos := 12,
                       row_pos := st.row_pos - 1 } 12)) :=
  ⟨rfl, by decide,
   C2_set_position_returns_min (newCursor fixture 10 1) 12 rfl (by decide)
     rfl (by decide) (by decide)⟩

/-- Outcome shape of the source-level relative seek. -/
theorem innerSeekCur_cases (d : Int) (c : Cursor) :
    (∃ np, innerSeekCur d c = .ok { c with inner_pos := np } np) ∨
    innerSeekCur d c = .err c (.ioErr c.errCode) := by
  simp only [innerSeekCur]
  split
  · right
    rfl
  · left
    exact ⟨_, rfl⟩

theorem scanToBytePos_errCode (t : Nat) (st : Cursor) :
    (∀ c' u, scanToBytePos t st = .ok c' u → c'.errCode = st.errCode) ∧
    (∀ c' e, scanToBytePos t st = .err c' e → e = .ioErr st.errCode) := by
  induction st using scanToBytePos.induct t with
  | case1 x h1 st1 hr =>
    obtain ⟨-, -, hec, -, -, -, -, -, -⟩ := readRow_ok x st1 0 hr
    constructor
    · intro c' u h
      rw [scanToBytePos, dif_pos h1, hr] at h
      simp only [if_true, PResult.ok.injEq] at h
      rw [← h.1, hec]
    · intro c' e h
      rw [scanToBytePos, dif_pos h1, hr] at h
      simp only [if_true] at h
      exact absurd h (by simp)
  | case2 x h1 st1 n hr hn ih =>
    obtain ⟨-, -, hec, -, -, -, -, -, -⟩ := readRow_ok x st1 n hr
    constructor
    · intro c' u h
      rw [scanToBytePos, dif_pos h1, hr] at h
      simp only [if_neg hn] at h
      rw [ih.1 c' u h, hec]
    · intro c' e h
      rw [scanToBytePos, dif_pos h1, hr] at h
      simp only [if_neg hn] at h
      rw [ih.2 c' e h, hec]
  | case3 x h1 st1 e1 hr =>
    obtain ⟨hst, hee, -⟩ := readRow_err x st1 e1 hr
    constructor
    · intro c' u h
      rw [scanToBytePos, dif_pos h1, hr] at h
      exact absurd h (by simp)
    · intro c' e h
      rw [scanToBytePos, dif_pos h1, hr] at h
      simp only [PResult.err.injEq] at h
      rw [← h.2, hee]
  | case4 x h1 hr =>
    constructor
    · intro c' u h
      rw [scanToBytePos, dif_pos h1, hr] at h
      exact absurd h (by simp)
    · intro c' e h
      rw [scanToBytePos, dif_pos h1, hr] at h
      exact absurd h (by simp)
  | case5 x h1 =>
    constructor
    · intro c' u h
      rw [scanToBytePos, dif_neg h1] at h
      simp only [PResult.ok.injEq] at h
      rw [← h.1]
    · intro c' e h
      rw [scanToBytePos, dif_neg h1] at h
      exact absurd h (by simp)

theorem scanToRowPos_no_err (t : Nat) (st : Cursor) :
    ∀ c' e, scanToRowPos t st ≠ .err c' e := by
  induction st using scanToRowPos.induct t with
  | case1 x h1 st1 hr =>
    intro c' e h
    rw [scanToRowPos, dif_pos h1, hr] at h
    simp only [if_true] at h
    exact absurd h (by simp)
  | case2 x h1 st1 n hr hn ih =>
    intro c' e h
    rw [scanToRowPos, dif_pos h1, hr] at h
    simp only [if_neg hn] at h
    exact ih c' e h
  | case3 x h1 st1 e1 hr =>
    intro c' e h
    rw [scanToRowPos, dif_pos h1, hr] at h
    exact absurd h (by simp)
  | case4 x h1 hr =>
    intro c' e h
    rw [scanToRowPos, dif_pos h1, hr] at h
    exact absurd h (by simp)
  | case5 x h1 =>
    intro c' e h
    rw [scanToRowPos, dif_neg h1] at h
    exact absurd h (by simp)

theorem scanToEofByte_errCode (st : Cursor) :
    (∀ c' u, scanToEofByte st = .ok c' u → c'.errCode = st.errCode) ∧
    (∀ c' e, scanToEofByte st = .err c' e → e = .ioErr st.errCode) := by
  induction st using scanToEofByte.induct with
  | case1 x h1 st1 n hr ih =>
    obtain ⟨-, -, hec, -, -, -, -, -, -⟩ := readRow_ok x st1 n hr
    constructor
    · intro c' u h
      rw [scanToEofByte, dif_pos h1, hr] at h
      rw [ih.1 c' u h, hec]
    · intro c' e h
      rw [scanToEofByte, dif_pos h1, hr] at h
      rw [ih.2 c' e h, hec]
  | case2 x h1 st1 e1 hr =>
    obtain ⟨hst, hee, -⟩ := readRow_err x st1 e1 hr
    constructor
    · intro c' u h
      rw [scanToEofByte, dif_pos h1, hr] at h
      exact absurd h (by simp)
    · intro c' e h
      rw [scanToEofByte, dif_pos h1, hr] at h
      simp only [PResult.err.injEq] at h
      rw [← h.2, hee]
  | case3 x h1 hr =>
    constructor
    · intro c' u h
      rw [scanToEofByte, dif_pos h1, hr] at h
      exact absurd h (by simp)
    · intro c' e h
      rw [scanToEofByte, dif_pos h1, hr] at h
      exact absurd h (by simp)
  | case4 x h1 =>
    constructor
    · intro c' u h
      rw [scanToEofByte, dif_neg h1] at h
      simp only [PResult.ok.injEq] at h
      rw [← h.1]
    · intro c' e h
      rw [scanToEofByte, dif_neg h1] at h
      exact absurd h (by simp)

theorem scanToEofRow_errCode (st : Cursor) :
    (∀ c' u, scanToEofRow st = .ok c' u → c'.errCode = st.errCode) ∧
    (∀ c' e, scanToEofRow st = .err c' e → e = .ioErr st.errCode) := by
  induction st using scanToEofRow.induct with
  | case1 x h1 st1 n hr ih =>
    obtain ⟨-, -, hec, -, -, -, -, -, -⟩ := readRow_ok x st1 n hr
    constructor
    · intro c' u h
      rw [scanToEofRow, dif_pos h1, hr] at h
      rw [ih.1 c' u h, hec]
    · intro c' e h
      rw [scanToEofRow, dif_pos h1, hr] at h
      rw [ih.2 c' e h, hec]
  | case2 x h1 st1 e1 hr =>
    obtain ⟨hst, hee, -⟩ := readRow_err x st1 e1 hr
    constructor
    · intro c' u h
      rw [scanToEofRow, dif_pos h1, hr] at h
      exact absurd h (by simp)
    · intro c' e h
      rw [scanToEofRow, dif_pos h1, hr] at h
      simp only [PResult.err.injEq] at h
      rw [← h.2, hee]
  | case3 x h1 hr =>
    constructor
    · intro c' u h
      rw [scanToEofRow, dif_pos h1, hr] at h
      exact absurd h (by simp)
    · intro c' e h
      rw [scanToEofRow, dif_pos h1, hr] at h
      exact absurd h (by simp)
  | case4 x h1 =>
    constructor
    · intro c' u h
      rw [scanToEofRow, dif_neg h1] at h
      simp only [PResult.ok.injEq] at h
      rw [← h.1]
    · intro c' e h
      rw [scanToEofRow, dif_neg h1] at h
      exact absurd h (by simp)

theorem setPosStart_errCode (p : Nat) (c : Cursor) :
    (∀ c' u, setPosStart p c = .ok c' u → c'.errCode = c.errCode) ∧
    (∀ c' e, setPosStart p c = .err c' e → e = .ioErr c.errCode) := by
  rcases innerSeekCur_cases (((lastBelow p c.cached_index).2 : Int) -
      (c.pos : Int)) c with ⟨np, hok⟩ | herr
  · constructor
    · intro c' u h
      simp only [setPosStart, hok, PResult.ok.injEq] at h
      rw [← h.1]
    · intro c' e h
      simp only [setPosStart, hok] at h
      exact absurd h (by simp)
  · constructor
    · intro c' u h
      simp only [setPosStart, herr] at h
      exact absurd h (by simp)
    · intro c' e h
      simp only [setPosStart, herr, PResult.err.injEq] at h
      rw [← h.2]

theorem setPosCorrect_errCode (p : Nat) (c : Cursor) :
    (∀ c' u, setPosCorrect p c = .ok c' u → c'.errCode = c.errCode) ∧
    (∀ c' e, setPosCorrect p c = .err c' e → e = .ioErr c.errCode) := by
  rw [setPosCorrect]
  by_cases h1 : c.pos > p
  · rw [if_pos h1]
    by_cases h2 : c.row_pos = 0
    · rw [if_pos h2]
      exact ⟨fun c' u h => absurd h (by simp), fun c' e h => absurd h (by simp)⟩
    · rw [if_neg h2]
      rcases innerSeekCur_cases ((p : Int) - (c.pos : Int)) c with ⟨np, hok⟩ | herr
      · rw [hok]
        constructor
        · intro c' u h
          simp only [PResult.ok.injEq] at h
          rw [← h.1]
        · intro c' e h
          exact absurd h (by simp)
      · rw [herr]
        constructor
        · intro c' u h
          exact absurd h (by simp)
        · intro c' e h
          simp only [PResult.err.injEq] at h
          rw [← h.2]
  · rw [if_neg h1]
    constructor
    · intro c' u h
      simp only [PResult.ok.injEq] at h
      rw [← h.1]
    · intro c' e h
      exact absurd h (by simp)

theorem setPosition_errCode (p : Nat) (c : Cursor) :
    (∀ c' u, setPosition p c = .ok c' u → c'.errCode = c.errCode) ∧
    (∀ c' e, setPosition p c = .err c' e → e = .ioErr c.errCode) := by
  cases h1 : setPosStart p c with
  | ok c2 u1 =>
    have hc2 : c2.errCode = c.errCode := (setPosStart_errCode p c).1 c2 u1 h1
    cases h2 : scanToBytePos p c2 with
    | ok c3 u2 =>
      have hc3 : c3.errCode = c2.errCode := (scanToBytePos_errCode p c2).1 c3 u2 h2
      constructor
      · intro c' u h
        rw [setPosition, h1] at h
        simp only [] at h
        rw [h2] at h
        simp only [] at h
        rw [(setPosCorrect_errCode p c3).1 c' u h, hc3, hc2]
      · intro c' e h
        rw [setPosition, h1] at h
        simp only [] at h
        rw [h2] at h
        simp only [] at h
        rw [(setPosCorrect_errCode p c3).2 c' e h, hc3, hc2]
    | err c3 e1 =>
      have he1 : e1 = .ioErr c2.errCode := (scanToBytePos_errCode p c2).2 c3 e1 h2
      constructor
      · intro c' u h
        rw [setPosition, h1] at h
        simp only [] at h
        rw [h2] at h
        exact absurd h (by simp)
      · intro c' e h
        rw [setPosition, h1] at h
        simp only [] at h
        rw [h2] at h
        simp only [PResult.err.injEq] at h
        rw [← h.2, he1, hc2]
    | panic =>
      constructor
      · intro c' u h
        rw [setPosition, h1] at h
        simp only [] at h
        rw [h2] at h
        exact absurd h (by simp)
      · intro c' e h
        rw [setPosition, h1] at h
        simp only [] at h
        rw [h2] at h
        exact absurd h (by simp)
  | err c2 e1 =>
    have he1 : e1 = .ioErr c.errCode := (setPosStart_errCode p c).2 c2 e1 h1
    constructor
    · intro c' u h
      rw [setPosition, h1] at h
      exact absurd h (by simp)
    · intro c' e h
      rw [setPosition, h1] at h
      simp only [PResult.err.injEq] at h
      rw [← h.2, he1]
  | panic =>
    constructor
    · intro c' u h
      rw [setPosition, h1] at h
      exact absurd h (by simp)
    · intro c' e h
      rw [setPosition, h1] at h
      exact absurd h (by simp)

theorem setRowPosition_err (r : Nat) (c : Cursor) :
    ∀ c' e, setRowPosition r c = .err c' e → e = .ioErr c.errCode := by
  intro c' e h
  rw [setRowPosition] at h
  by_cases hg : c.granularity = 0
  · rw [if_pos hg] at h
    exact absurd h (by simp)
  · rw [if_neg hg] at h
    simp only [] at h
    rcases innerSeekCur_cases (((rowLookup r c).2 : Int) - (c.pos : Int)) c with
      ⟨np, hok⟩ | herr
    · rw [hok] at h
      simp only [] at h
      cases h2 : scanToRowPos r { { c with inner_pos := np } with
          row_pos := (rowLookup r c).1, pos := (rowLookup r c).2 } with
      | ok c3 u2 =>
        rw [h2] at h
        exact absurd h (by simp)
      | err c3 e1 =>
        exact absurd h2 (by exact scanToRowPos_no_err r _ c3 e1)
      | panic =>
        rw [h2] at h
        exact absurd h (by simp)
    · rw [herr] at h
      simp only [PResult.err.injEq] at h
      rw [← h.2]

theorem seekFinish_err (t : Int) (c : Cursor) :
    ∀ c' e, seekFinish t c = .err c' e →
      e = .invalidSeek ∨ e = .ioErr c.errCode := by
  intro c' e h
  rw [seekFinish] at h
  by_cases h1 : t < 0
  · rw [if_pos h1] at h
    simp only [PResult.err.injEq] at h
    exact Or.inl h.2.symm
  · rw [if_neg h1] at h
    exact Or.inr ((setPosition_errCode t.toNat c).2 c' e h)

theorem seek_err (w : Whence) (c : Cursor) :
    ∀ c' e, seek w c = .err c' e → e = .invalidSeek ∨ e = .ioErr c.errCode := by
  intro c' e h
  cases w with
  | start n =>
    simp only [seek] at h
    exact seekFinish_err _ c c' e h
  | current m =>
    simp only [seek] at h
    exact seekFinish_err _ c c' e h
  | fromEnd m =>
    rw [seek] at h
    cases h1 : scanToEofByte c with
    | ok c1 u =>
      rw [h1] at h
      simp only [] at h
      cases h2 : c1.length with
      | some len =>
        rw [h2] at h
        rcases seekFinish_err _ c1 c' e h with hi | hi
        · exact Or.inl hi
        · rw [(scanToEofByte_errCode c).1 c1 u h1] at hi
          exact Or.inr hi
      | none =>
        rw [h2] at h
        exact absurd h (by simp)
    | err c1 e1 =>
      rw [h1] at h
      simp only [PResult.err.injEq] at h
      rw [← h.2]
      exact Or.inr ((scanToEofByte_errCode c).2 c1 e1 h1)
    | panic =>
      rw [h1] at h
      exact absurd h (by simp)

theorem seekRowFinish_err (t : Int) (c : Cursor) :
    ∀ c' e, seekRowFinish t c = .err c' e →
      e = .invalidSeek ∨ e = .ioErr c.errCode := by
  intro c' e h
  rw [seekRowFinish] at h
  by_cases h1 : t < 0
  · rw [if_pos h1] at h
    simp only [PResult.err.injEq] at h
    exact Or.inl h.2.symm
  · rw [if_neg h1] at h
    exact Or.inr (setRowPosition_err t.toNat c c' e h)

theorem seekRow_err (w : Whence) (c : Cursor) :
    ∀ c' e, seekRow w c = .err c' e → e = .invalidSeek ∨ e = .ioErr c.errCode := by
  intro c' e h
  cases w with
  | start n =>
    simp only [seekRow] at h
    exact seekRowFinish_err _ c c' e h
  | current m =>
    simp only [seekRow] at h
    exact seekRowFinish_err _ c c' e h
  | fromEnd m =>
    rw [seekRow] at h
    cases h1 : scanToEofRow c with
    | ok c1 u =>
      rw [h1] at h
      simp only [] at h
      cases h2 : c1.row_length with
      | some len =>
        rw [h2] at h
        rcases seekRowFinish_err _ c1 c' e h with hi | hi
        · exact Or.inl hi
        · rw [(scanToEofRow_errCode c).1 c1 u h1] at hi
          exact Or.inr hi
      | none =>
        rw [h2] at h
        exact absurd h (by simp)
    | err c1 e1 =>
      rw [h1] at h
      simp only [PResult.err.injEq] at h
      rw [← h.2]
      exact Or.inr ((scanToEofRow_errCode c).2 c1 e1 h1)
    | panic =>
      rw [h1] at h
      exact absurd h (by simp)

theorem readPT_err (buf : List Nat) (c : Cursor) :
    ∀ c' e, readPT buf c = .err c' e → e = .ioErr c.errCode := by
  intro c' e h
  rw [readPT] at h
  by_cases hf : srcFails c
  · rw [if_pos hf] at h
    simp only [PResult.err.injEq] at h
    rw [← h.2]
  · rw [if_neg hf] at h
    exact absurd h (by simp)

theorem readUntilPT_err (b : Nat) (buf : List Nat) (c : Cursor) :
    ∀ c' e, readUntilPT b buf c = .err c' e → e = .ioErr c.errCode := by
  intro c' e h
  simp only [readUntilPT] at h
  split at h
  · simp only [PResult.err.injEq] at h
    rw [← h.2]
  · exact absurd h (by simp)

/-- The error, if any, of one operation of the public cursor interface. -/
def opErr : Op → Cursor → Option Err
  | .opReadRow, c => resultErr (readRow c)
  | .opSetPosition p, c => resultErr (setPosition p c)
  | .opSetRowPosition r, c => resultErr (setRowPosition r c)
  | .opSeek w, c => resultErr (seek w c)
  | .opSeekRow w, c => resultErr (seekRow w c)
  | .opRead buf, c => resultErr (readPT buf c)
  | .opConsume _, _ => none
  | .opFillBuf, _ => none
  | .opReadUntil b buf, c => resultErr (readUntilPT b buf c)
  | .opSetSeparator _, _ => none

/-- Whether an operation is one of the two seek entry points. -/
def isSeekOp (op : Op) : Prop :=
  ∃ w, op = Op.opSeek w ∨ op = Op.opSeekRow w

theorem resultErr_some {α : Type} (r : PResult α) (e : Err)
    (h : resultErr r = some e) : ∃ c2, r = .err c2 e := by
  cases r with
  | ok c2 a => exact absurd h (by simp [resultErr])
  | err c2 e2 =>
    simp only [resultErr, Option.some.injEq] at h
    exact ⟨c2, by rw [h]⟩
  | panic => exact absurd h (by simp [resultErr])

/-- C3: `seek` translates `Start(n)` to `n`, `Current(n)` to `byte_pos + n`
and `End(n)` to `(total_length - 1) + n` (scanning to end-of-stream first
when the total length is unknown), then delegates to `set_position`;
`seek_row` mirrors this in row space; a negative computed target fails at
once with the locally manufactured invalid-seek error, the cursor left as
the translation step produced it and no positioning I/O done; and the
invalid-seek error is the only error the cursor itself manufactures — every
error of every other operation is the source's own error, payload
unchanged. -/
theorem C3_seek_translation_and_errors :
    (∀ c n, n < 2 ^ 63 → seek (.start n) c = setPosition n c) ∧
    (∀ c m, c.pos < 2 ^ 63 →
      seek (.current m) c =
        if (c.pos : Int) + m < 0 then .err c .invalidSeek
        else setPosition ((c.pos : Int) + m).toNat c) ∧
    (∀ c c1 u len m, scanToEofByte c = .ok c1 u → c1.length = some len →
      len < 2 ^ 63 →
      seek (.fromEnd m) c =
        if (len : Int) - 1 + m < 0 then .err c1 .invalidSeek
        else setPosition ((len : Int) - 1 + m).toNat c1) ∧
    (∀ c n, n < 2 ^ 63 → seekRow (.start n) c = setRowPosition n c) ∧
    (∀ c m, c.row_pos < 2 ^ 63 →
      seekRow (.current m) c =
        if (c.row_pos : Int) + m < 0 then .err c .invalidSeek
        else setRowPosition ((c.row_pos : Int) + m).toNat c) ∧
    (∀ c c1 u len m, scanToEofRow c = .ok c1 u → c1.row_length = some len →
      len < 2 ^ 63 →
      seekRow (.fromEnd m) c =
        if (len : Int) - 1 + m < 0 then .err c1 .invalidSeek
        else setRowPosition ((len : Int) - 1 + m).toNat c1) ∧
    (∀ op c e, opErr op c = some e →
      e = .ioErr c.errCode ∨ (e = .invalidSeek ∧ isSeekOp op)) := by
  refine ⟨fun c n hn => ?_, fun c m hp => ?_,
          fun c c1 u len m h1 h2 hlen => ?_, fun c n hn => ?_,
          fun c m hp => ?_, fun c c1 u len m h1 h2 hlen => ?_,
          fun op c e h => ?_⟩
  · show seekFinish (asI64 n) c = setPosition n c
    rw [asI64, if_pos hn, seekFinish,
        if_neg (Int.not_lt.mpr (Int.natCast_nonneg n)), Int.toNat_natCast]
  · show seekFinish (asI64 c.pos + m) c = _
    rw [asI64, if_pos hp, seekFinish]
  · rw [seek, h1]
    simp only []
    rw [h2]
    simp only [asI64, if_pos hlen, seekFinish]
  · show seekRowFinish (asI64 n) c = setRowPosition n c
    rw [asI64, if_pos hn, seekRowFinish,
        if_neg (Int.not_lt.mpr (Int.natCast_nonneg n)), Int.toNat_natCast]
  · show seekRowFinish (asI64 c.row_pos + m) c = _
    rw [asI64, if_pos hp, seekRowFinish]
  · rw [seekRow, h1]
    simp only []
    rw [h2]
    simp only [asI64, if_pos hlen, seekRowFinish]
  · cases op with
    | opReadRow =>
      obtain ⟨c2, hr⟩ := resultErr_some _ e h
      exact Or.inl (readRow_err c c2 e hr).2.1
    | opSetPosition p =>
      obtain ⟨c2, hr⟩ := resultErr_some _ e h
      exact Or.inl ((setPosition_errCode p c).2 c2 e hr)
    | opSetRowPosition r =>
      obtain ⟨c2, hr⟩ := resultErr_some _ e h
      exact Or.inl (setRowPosition_err r c c2 e hr)
    | opSeek w =>
      obtain ⟨c2, hr⟩ := resultErr_some _ e h
      rcases seek_err w c c2 e hr with hi | hi
      · exact Or.inr ⟨hi, w, Or.inl rfl⟩
      · exact Or.inl hi
    | opSeekRow w =>
      obtain ⟨c2, hr⟩ := resultErr_some _ e h
      rcases seekRow_err w c c2 e hr with hi | hi
      · exact Or.inr ⟨hi, w, Or.inr rfl⟩
      · exact Or.inl hi
    | opRead buf =>
      obtain ⟨c2, hr⟩ := resultErr_some _ e h
      exact Or.inl (readPT_err buf c c2 e hr)
    | opConsume amt => exact absurd h (by simp [opErr])
    | opFillBuf => exact absurd h (by simp [opErr])
    | opReadUntil b buf =>
      obtain ⟨c2, hr⟩ := resultErr_some _ e h
      exact Or.inl (readUntilPT_err b buf c c2 e hr)
    | opSetSeparator b => exact absurd h (by simp [opErr])

/-- The empty-stream cursor after the end-of-stream scan of `seek(End(_))`. -/
def c3Eof : Cursor :=
  { newCursor [] 10 1 with length := some 0, row_length := some 0 }

/-- Witness for C3 on concrete cursors: a `Start` seek delegating, a
negative `Current` target rejected with the invalid-seek error before any
positioning, an `End` seek translating through the discovered length, and
the error classification at a rejected seek. -/
theorem C3_witness :
    (3 : Nat) < 2 ^ 63 ∧
    seek (.start 3) (newCursor [] 10 1) = setPosition 3 (newCursor [] 10 1) ∧
    seek (.current (-5)) (newCursor [] 10 1) =
      (if (((newCursor [] 10 1).pos : Int)) + (-5) < 0
       then .err (newCursor [] 10 1) .invalidSeek
       else setPosition ((((newCursor [] 10 1).pos : Int)) + (-5)).toNat
         (newCursor [] 10 1)) ∧
    scanToEofByte (newCursor [] 10 1) = .ok c3Eof () ∧
    seek (.fromEnd (-2)) (newCursor [] 10 1) =
      (if ((0 : Nat) : Int) - 1 + (-2) < 0 then .err c3Eof .invalidSeek
       else setPosition (((0 : Nat) : Int) - 1 + (-2)).toNat c3Eof) ∧
    (opErr (.opSeek (.current (-5))) (newCursor [] 10 1) = some .invalidSeek →
      Err.invalidSeek = .ioErr (newCursor [] 10 1).errCode ∨
      (Err.invalidSeek = Err.invalidSeek ∧ isSeekOp (.opSeek (.current (-5))))) := by
  have heof : scanToEofByte (newCursor [] 10 1) = .ok c3Eof () := by
    simp [scanToEofByte, readRow, srcFails, innerReadLen, readUntilTaken,
          newCursor, c3Eof]
  refine ⟨by norm_num,
          C3_seek_translation_and_errors.1 (newCursor [] 10 1) 3 (by norm_num),
          C3_seek_translation_and_errors.2.1 (newCursor [] 10 1) (-5) (by decide),
          heof,
          C3_seek_translation_and_errors.2.2.1 (newCursor [] 10 1) c3Eof () 0
            (-2) heof rfl (by norm_num),
          fun h => C3_seek_translation_and_errors.2.2.2.2.2.2
            (.opSeek (.current (-5))) (newCursor [] 10 1) .invalidSeek h⟩
